import Mathlib

/-!
Verification development for the content-type classification and
decompression-unwrapping core of the repository.

Part 1 embeds `scrapy/responsetypes.py` (the Type Classifier).
Part 2 models the Decompression Unwrapper middleware from the
specification (its source file is not part of the reviewed tree; its
test suite is, and pins several behaviours).
-/

namespace Spec2Proof

/-! ### Byte- and string-level helpers

Python operates on `str`/`bytes`; we model `bytes` as `List Nat` and
`str` as Lean `String`, with the handful of Python primitives the
source uses re-implemented structurally below.
-/

/-- Sum of the lengths of a list of chunks. -/
def sumLen (cs : List (List Nat)) : Nat := (cs.map List.length).sum

/-- Python `str.split(sep)` for a single-character separator.
Always returns a non-empty list, like Python. -/
def splitListOn (sep : Char) : List Char → List (List Char)
  | [] => [[]]
  | c :: cs =>
    let rest := splitListOn sep cs
    if c == sep then [] :: rest
    else match rest with
      | [] => [[c]]
      | r :: rs => (c :: r) :: rs

/-- Python whitespace characters recognised by `str.strip()`. -/
def isPySpace (c : Char) : Bool :=
  c.toNat == 32 || c.toNat == 9 || c.toNat == 10 ||
  c.toNat == 13 || c.toNat == 11 || c.toNat == 12

/-- Python `str.strip()`. -/
def trimChars (cs : List Char) : List Char :=
  ((cs.dropWhile isPySpace).reverse.dropWhile isPySpace).reverse

/-- ASCII lower-casing of one character (Python `str.lower` /
`bytes.lower` restricted to the ASCII range used throughout). -/
def lowerChar (c : Char) : Char :=
  if 65 ≤ c.toNat && c.toNat ≤ 90 then Char.ofNat (c.toNat + 32) else c

def lowerStr (s : String) : String := String.mk (s.data.map lowerChar)

def trimStr (s : String) : String := String.mk (trimChars s.data)

/-- Split a string on a single-character separator (Python `split`). -/
def splitStr (sep : Char) (s : String) : List String :=
  (splitListOn sep s.data).map String.mk

/-- First-match association-list lookup (Python `dict` lookup over a
literal table). -/
def lookupAssoc (table : List (String × String)) (key : String) : Option String :=
  (table.find? (fun p => p.1 == key)).map (·.2)

/-- ASCII lower-casing of a byte (Python `bytes.lower`). -/
def byteLower (b : Nat) : Nat := if 65 ≤ b && b ≤ 90 then b + 32 else b

/-- The bytes of an ASCII string literal. -/
def strBytes (s : String) : List Nat := s.data.map Char.toNat

/-- Whether `pat` occurs as a contiguous subsequence of `l`
(Python `pat in l` on bytes). -/
def containsSeq (pat : List Nat) : List Nat → Bool
  | [] => pat.isEmpty
  | b :: rest => pat.isPrefixOf (b :: rest) || containsSeq pat rest

/-! ### Part 1: the Type Classifier (`scrapy/responsetypes.py`)

The source resolves a response class (`scrapy.http.Response` and its
subclasses); we embed the closed set of classes reachable from the
`ResponseTypes.CLASSES` table as the tag type `ResponseKind`, with
`generic` standing for the base `Response` class (the fallback, which
the specification also calls `Binary`).
-/

inductive ResponseKind where
  | generic
  | text
  | html
  | xml
  | json
  deriving DecidableEq, Repr

/-- The `ResponseTypes.CLASSES` table of `responsetypes.py`, with each
response class name replaced by its `ResponseKind` tag. -/
def CLASSES : List (String × ResponseKind) :=
  [ ("text/html", .html),
    ("application/atom+xml", .xml),
    ("application/rdf+xml", .xml),
    ("application/rss+xml", .xml),
    ("application/xhtml+xml", .html),
    ("application/vnd.wap.xhtml+xml", .html),
    ("application/xml", .xml),
    ("application/json", .json),
    ("application/x-json", .json),
    ("application/json-amazonui-streaming", .json),
    ("application/javascript", .text),
    ("application/x-javascript", .text),
    ("text/xml", .xml),
    ("text/*", .text) ]

def lookupClass (m : String) : Option ResponseKind :=
  (CLASSES.find? (fun p => p.1 == m)).map (·.2)

/-- `ResponseTypes.from_mimetype`: exact table match, then the
`type/*` wildcard, then the generic class. `none` models Python
`None`. -/
def from_mimetype (mimetype : Option String) : ResponseKind :=
  match mimetype with
  | none => .generic
  | some m =>
    match lookupClass m with
    | some k => k
    | none =>
      let basetype := ((splitStr '/' m).headD "") ++ "/*"
      (lookupClass basetype).getD .generic

/-- Truthiness of an optional byte-string (Python `if content_encoding:`). -/
def optTruthy (o : Option String) : Bool :=
  match o with
  | none => false
  | some s => s != ""

/-- `ResponseTypes.from_content_type`: a truthy `content_encoding`
short-circuits to the generic class; otherwise the MIME type is the
part before the first `;`, stripped and lower-cased. -/
def from_content_type (content_type : String) (content_encoding : Option String) :
    ResponseKind :=
  if optTruthy content_encoding then .generic
  else
    let mimetype := lowerStr (trimStr ((splitStr ';' content_type).headD ""))
    from_mimetype (some mimetype)

/-- Modelled from the spec: the MIME `encodings_map` of the system
MIME-type-by-extension table (extensions that imply a
content-encoding, e.g. `.gz`); the table itself ships outside the
reviewed tree. -/
def encodingsMap : List (String × String) :=
  [ (".gz", "gzip"), (".z", "compress"), (".bz2", "bzip2"),
    (".xz", "xz"), (".br", "br") ]

/-- Modelled from the spec: the MIME-type-by-extension entries of the
system table relevant here; the packaged `mime.types` data file is not
part of the reviewed tree. -/
def typesMap : List (String × String) :=
  [ (".html", "text/html"), (".htm", "text/html"),
    (".xml", "text/xml"), (".json", "application/json"),
    (".js", "application/javascript"), (".txt", "text/plain"),
    (".csv", "text/csv"), (".pdf", "application/pdf"),
    (".gif", "image/gif"), (".png", "image/png"),
    (".jpg", "image/jpeg"), (".zip", "application/zip"),
    (".tar", "application/x-tar") ]

/-- `posixpath.splitext`: split off the extension (from the last dot)
of the last path segment; a basename made only of leading dots has no
extension. Returns `(base, ext)`, the extension including its dot. -/
def splitExtChars (cs : List Char) : List Char × List Char :=
  let rev := cs.reverse
  let extRev := rev.takeWhile (fun c => c ≠ '.' && c ≠ '/')
  let rest := rev.drop extRev.length
  match rest with
  | '.' :: baseRev =>
    let nameRev := baseRev.takeWhile (fun c => c ≠ '/')
    if nameRev.any (fun c => c ≠ '.') then
      (baseRev.reverse, '.' :: extRev.reverse)
    else (cs, [])
  | _ => (cs, [])

def splitExtStr (s : String) : String × String :=
  let (b, e) := splitExtChars s.data
  (String.mk b, String.mk e)

/-- Modelled from the spec: `MimeTypes.guess_type` (Python standard
library, backing `ResponseTypes.from_filename`; not part of the
reviewed tree). Extracts the extension; an extension found in the
encodings map yields that content-encoding and the MIME type is then
guessed from the next extension of the remaining base name. -/
def guess_type (filename : String) : Option String × Option String :=
  let (base, ext) := splitExtStr filename
  let extL := lowerStr ext
  match lookupAssoc encodingsMap extL with
  | some enc =>
    let (_, ext2) := splitExtStr base
    (lookupAssoc typesMap (lowerStr ext2), some enc)
  | none => (lookupAssoc typesMap extL, none)

/-- `ResponseTypes.from_filename`: a guessed MIME type counts only
when no content-encoding is implied by the extension. -/
def from_filename (filename : String) : ResponseKind :=
  match guess_type filename with
  | (some m, none) => from_mimetype (some m)
  | _ => .generic

/-- The filename-parameter extraction inside
`ResponseTypes.from_content_disposition`:
`split(";")[1].split("=")[1].strip("\x22\x27")`, with `none` standing
for the `IndexError` the source catches. -/
def parseDispositionFilename (cd : String) : Option String :=
  match (splitStr ';' cd).get? 1 with
  | none => none
  | some part =>
    match (splitStr '=' part).get? 1 with
    | none => none
    | some v =>
      let isQuote := fun (c : Char) => c.toNat == 34 || c.toNat == 39
      some (String.mk (((v.data.dropWhile isQuote).reverse.dropWhile isQuote).reverse))

/-- `ResponseTypes.from_content_disposition`. -/
def from_content_disposition (cd : String) : ResponseKind :=
  match parseDispositionFilename cd with
  | some filename => from_filename filename
  | none => .generic

/-- A header mapping: repeated-key association list, first match wins
(Python `dict`-style lookup for the keys the classifier reads). -/
def Headers := List (String × String)

def hget (h : Headers) (key : String) : Option String :=
  (List.find? (fun p => p.1 == key) h).map (·.2)

/-- `ResponseTypes.from_headers`: Content-Type first (suppressed by a
truthy Content-Encoding), then — whenever that resolved to the generic
class — the Content-Disposition filename. -/
def from_headers (h : Headers) : ResponseKind :=
  let cls :=
    match hget h "Content-Type" with
    | some ct => from_content_type ct (hget h "Content-Encoding")
    | none => .generic
  if cls = .generic then
    match hget h "Content-Disposition" with
    | some cd => from_content_disposition cd
    | none => cls
  else cls

/-- Modelled from the spec: the repository helper `binary_is_text`
(`scrapy/utils/python.py`, not part of the reviewed tree): a sample is
text when it holds no unprintable control bytes (control range below
32 other than NUL, TAB, LF, CR). -/
def binary_is_text (bs : List Nat) : Bool :=
  bs.all (fun b => !(b < 32 && b ≠ 0 && b ≠ 9 && b ≠ 10 && b ≠ 13))

/-- `ResponseTypes.from_body`: sniff the first 5000 bytes; non-text
samples are binary (octet-stream, i.e. the generic class); otherwise
match `<html>`, then `<?xml`, then `<!doctype html>` in the
lower-cased sample, else generic text. -/
def from_body (body : List Nat) : ResponseKind :=
  let chunk := body.take 5000
  if !binary_is_text chunk then from_mimetype (some "application/octet-stream")
  else
    let lc := chunk.map byteLower
    if containsSeq (strBytes "<html>") lc then from_mimetype (some "text/html")
    else if containsSeq (strBytes "<?xml") lc then from_mimetype (some "text/xml")
    else if containsSeq (strBytes "<!doctype html>") lc then
      from_mimetype (some "text/html")
    else from_mimetype (some "text")

/-- `ResponseTypes.from_args`: strict precedence headers → url →
filename → body, each later hint consulted only while the class is
still the generic one. -/
def from_args (headers : Option Headers) (url : Option String)
    (filename : Option String) (body : Option (List Nat)) : ResponseKind :=
  let cls : ResponseKind :=
    match headers with
    | some h => from_headers h
    | none => .generic
  let cls :=
    if cls = .generic then
      match url with
      | some u => from_filename u
      | none => cls
    else cls
  let cls :=
    if cls = .generic then
      match filename with
      | some f => from_filename f
      | none => cls
    else cls
  if cls = .generic then
    match body with
    | some b => from_body b
    | none => cls
  else cls

/-! ### Part 2: the Decompression Unwrapper

Modelled from the spec: the `HttpCompressionMiddleware` source file is
not part of the reviewed tree (only its test suite is), so the
unwrapper below follows §4.1 of the specification, with the codec
layer abstracted into a `CodecEnv` (spec §9: a capability table plus
the per-algorithm decode action, producing the decoded output as a
sequence of bounded chunks for the streaming size checks of §5).
-/

/-- A recognised compression algorithm (spec §3, `EncodingToken`). -/
inductive Alg where
  | gzip
  | deflate
  | br
  | zstd
  deriving DecidableEq, Repr

/-- Modelled from the spec: the codec capability table (§9) together
with the decode action of each linked codec backend. `decodeAlg`
returns the decoded output of one layer as a list of bounded chunks,
so that the unwrap loop can compare the running decoded size against
the hard limit chunk by chunk (§5). -/
structure CodecEnv where
  brAvailable : Bool
  zstdAvailable : Bool
  decodeAlg : Alg → List Nat → List (List Nat)

/-- Modelled from the spec: the token-to-algorithm map of §4.1 step 3a
(`gzip`/`x-gzip` → gzip, `deflate` → deflate, `br` → brotli, `zstd` →
zstd). -/
def tokenAlg (t : String) : Option Alg :=
  if t == "gzip" || t == "x-gzip" then some .gzip
  else if t == "deflate" then some .deflate
  else if t == "br" then some .br
  else if t == "zstd" then some .zstd
  else none

/-- Modelled from the spec: whether a token can be reversed (§4.1 step
3b): known algorithm whose backend is linked, or the no-op `identity`
token. -/
def supportedTok (env : CodecEnv) (t : String) : Bool :=
  t == "identity" ||
  match tokenAlg t with
  | some .gzip => true
  | some .deflate => true
  | some .br => env.brAvailable
  | some .zstd => env.zstdAvailable
  | none => false

/-- Modelled from the spec: the full encoding chain (§3): concatenate,
in header order, the comma-split, whitespace-trimmed, lower-cased
tokens of every `Content-Encoding` header occurrence. -/
def chainTokens (occurrences : List String) : List String :=
  (occurrences.map
    (fun occ => (splitStr ',' occ).map (fun s => lowerStr (trimStr s)))).flatten

/-- Worker for `splitEncodings`, running over the reversed chain:
collect supported tokens until the first unsupported one, which stops
iteration immediately (§4.1 step 3b). -/
def splitEncodingsRev (env : CodecEnv) : List String → List String × List String
  | [] => ([], [])
  | t :: rest =>
    if supportedTok env t then
      let p := splitEncodingsRev env rest
      (t :: p.1, p.2)
    else ([], (t :: rest).reverse)

/-- Modelled from the spec: split the declared chain into the tokens
to decode (most-recent-first, stack discipline of §3) and the tokens
to keep (original declaration order), stopping at the first
unsupported token scanning backward (§4.1 step 3). -/
def splitEncodings (env : CodecEnv) (chain : List String) :
    List String × List String :=
  splitEncodingsRev env chain.reverse

/-- Modelled from the spec: consume the decoded chunks of one layer,
comparing the running decoded size against the hard `maxSize` after
each chunk and aborting as soon as it is exceeded (§4.1 step 3a, §5);
a `maxSize` of zero means no hard limit. The error carries the limit
that was breached. -/
def decodeChunksAcc (maxSize : Nat) : List (List Nat) → List Nat →
    Except Nat (List Nat)
  | [], acc => .ok acc
  | c :: cs, acc =>
    let acc2 := acc ++ c
    if maxSize ≠ 0 ∧ acc2.length > maxSize then .error maxSize
    else decodeChunksAcc maxSize cs acc2

/-- Modelled from the spec: reverse one supported token against the
byte buffer (§4.1 step 3a); `identity` is a no-op. -/
def decodeOne (env : CodecEnv) (maxSize : Nat) (t : String) (body : List Nat) :
    Except Nat (List Nat) :=
  if t == "identity" then .ok body
  else
    match tokenAlg t with
    | some a => decodeChunksAcc maxSize (env.decodeAlg a body) []
    | none => .ok body

/-- Modelled from the spec: the iterative decode loop over the tokens
to decode, in most-recent-first order (§4.1 step 3). -/
def decodeLoop (env : CodecEnv) (maxSize : Nat) :
    List String → List Nat → Except Nat (List Nat)
  | [], body => .ok body
  | t :: ts, body =>
    match decodeOne env maxSize t body with
    | .error m => .error m
    | .ok b => decodeLoop env maxSize ts b

/-- The decode loop with no size enforcement: the bytes each decode
step materialises (reference function for stating when the limits
bite). -/
def decodeAll (env : CodecEnv) : List String → List Nat → List Nat
  | [], body => body
  | t :: ts, body =>
    if t == "identity" then decodeAll env ts body
    else
      match tokenAlg t with
      | some a => decodeAll env ts (env.decodeAlg a body).flatten
      | none => decodeAll env ts body

/-- Whether, along the decode loop, the cumulative decoded size of
some decode step exceeds `ms` (the situation in which the hard limit
of spec §3 must abort the unwrap). -/
def stepExceeds (env : CodecEnv) (ms : Nat) : List String → List Nat → Bool
  | [], _ => false
  | t :: ts, body =>
    if t == "identity" then stepExceeds env ms ts body
    else
      match tokenAlg t with
      | some a =>
        decide (sumLen (env.decodeAlg a body) > ms) ||
          stepExceeds env ms ts (env.decodeAlg a body).flatten
      | none => stepExceeds env ms ts body

/-- The two byte ceilings of spec §3 (`SizeLimits`); zero means the
tier is unset / no limit. -/
structure SizeLimits where
  maxSize : Nat
  warnSize : Nat
  deriving DecidableEq, Repr

/-- Modelled from the spec: resolve one limit tier with precedence
per-request override > spider attribute > global default (§3, §6);
zero means absent for that tier. -/
def resolveLimit (metaVal attrVal defaultVal : Nat) : Nat :=
  if metaVal ≠ 0 then metaVal
  else if attrVal ≠ 0 then attrVal
  else defaultVal

/-- The two observability counters of spec §4.1 step 4. -/
structure Stats where
  responseCount : Nat
  responseBytes : Nat
  deriving DecidableEq, Repr

/-- The structured diagnostics of spec §6: the unsupported-codec
warning names the URL and the comma-joined remaining tokens; the soft
limit warning names the URL, the decoded size and the warn
threshold. -/
inductive LogEvent where
  | unsupportedWarning (url : String) (tokens : String)
  | sizeWarning (url : String) (actual : Nat) (threshold : Nat)
  deriving DecidableEq, Repr

def isSizeWarning : LogEvent → Bool
  | .sizeWarning _ _ _ => true
  | _ => false

/-- The distinguishable drop-this-response condition of spec §7
(`DropResponse`), carrying the response identity and the breached
limit. -/
structure DropCondition where
  url : String
  maxSize : Nat
  deriving DecidableEq, Repr

/-- Outcome of a successful unwrap call: decoded body, the remaining
`Content-Encoding` tokens (empty means the header is stripped), the
stats increments and the diagnostics emitted. -/
structure UnwrapResult where
  body : List Nat
  remainingEncoding : List String
  stats : Stats
  logs : List LogEvent
  deriving DecidableEq, Repr

/-- Python `b",".join(tokens)`. -/
def commaJoin : List String → String
  | [] => ""
  | [t] => t
  | t :: ts => t ++ "," ++ commaJoin ts

/-- Modelled from the spec: the unwrap algorithm of §4.1
(`HttpCompressionMiddleware.process_response`, absent from the
reviewed tree). `HEAD` requests and empty bodies bypass everything
(step 6); an empty chain returns the body unchanged with no stats
update (step 2); otherwise the chain is split at the first unsupported
token scanning backward, the supported suffix is decoded under the
hard limit, remaining tokens are re-attached in original order with a
diagnostic (steps 3b, 5), the soft limit emits one diagnostic, and the
two counters are updated on full decode (step 4). Per the repository
test suite, an `identity`-only chain is decoded as a no-op (header
stripped, counters updated). `unwrapCore` builds the success result
once the decode loop finished: remaining tokens re-attached, stats on
full decode, the two diagnostics of §6. -/
def unwrapCore (url : String) (toKeep : List String) (limits : SizeLimits)
    (decoded : List Nat) : UnwrapResult :=
  ⟨decoded, toKeep,
    (if toKeep.isEmpty then ⟨1, decoded.length⟩ else ⟨0, 0⟩),
    (if toKeep.isEmpty then []
     else [.unsupportedWarning url (commaJoin toKeep)]) ++
    (if limits.warnSize ≠ 0 ∧ decoded.length > limits.warnSize then
      [.sizeWarning url decoded.length limits.warnSize]
     else [])⟩

def unwrap (env : CodecEnv) (method url : String) (occurrences : List String)
    (body : List Nat) (limits : SizeLimits) : Except DropCondition UnwrapResult :=
  if method == "HEAD" || body.isEmpty then
    .ok ⟨body, chainTokens occurrences, ⟨0, 0⟩, []⟩
  else if (chainTokens occurrences).isEmpty then .ok ⟨body, [], ⟨0, 0⟩, []⟩
  else
    match decodeLoop env limits.maxSize
        (splitEncodings env (chainTokens occurrences)).1 body with
    | .error m => .error ⟨url, m⟩
    | .ok decoded =>
      .ok (unwrapCore url (splitEncodings env (chainTokens occurrences)).2
        limits decoded)

/-- The caller-supplied configuration of spec §6: global defaults and
the optional spider attributes (zero = unset). -/
structure MwConfig where
  defaultMaxSize : Nat
  defaultWarnSize : Nat
  spiderMaxSize : Nat
  spiderWarnSize : Nat
  deriving DecidableEq, Repr

/-- The request-side inputs of spec §6: method and the optional
per-request metadata overrides (zero = absent). -/
structure Req where
  method : String
  metaMaxSize : Nat
  metaWarnSize : Nat
  deriving DecidableEq, Repr

/-- Modelled from the spec: the effective size limits, each tier
resolved with precedence request metadata > spider attribute > global
default (§3, §6). -/
def effectiveLimits (cfg : MwConfig) (req : Req) : SizeLimits :=
  ⟨resolveLimit req.metaMaxSize cfg.spiderMaxSize cfg.defaultMaxSize,
   resolveLimit req.metaWarnSize cfg.spiderWarnSize cfg.defaultWarnSize⟩

/-- Modelled from the spec: one full middleware pass — resolve the
effective limits, then unwrap. -/
def processResponse (env : CodecEnv) (cfg : MwConfig) (req : Req)
    (url : String) (occurrences : List String) (body : List Nat) :
    Except DropCondition UnwrapResult :=
  unwrap env req.method url occurrences body (effectiveLimits cfg req)

/-! #### A symbolic codec environment

For the round-trip theorems we instantiate `CodecEnv` with a symbolic
codec in which compressing one layer prepends an algorithm tag byte;
decoding strips it. All four backends are available. -/

def algCode : Alg → Nat
  | .gzip => 1
  | .deflate => 2
  | .br => 3
  | .zstd => 4

def algTokenName : Alg → String
  | .gzip => "gzip"
  | .deflate => "deflate"
  | .br => "br"
  | .zstd => "zstd"

/-- Symbolic one-layer compression: tag byte, then the payload. -/
def compressSym (a : Alg) (bs : List Nat) : List Nat := algCode a :: bs

/-- Compress under a forward chain: the first listed algorithm is
applied first, so the last listed one is outermost (spec §3). -/
def compressChain (algs : List Alg) (bs : List Nat) : List Nat :=
  algs.foldl (fun acc a => compressSym a acc) bs

def symDecode (a : Alg) : List Nat → List (List Nat)
  | [] => [[]]
  | b :: rest => if b == algCode a then [rest] else [b :: rest]

def symEnv : CodecEnv := ⟨true, true, symDecode⟩

/-! ### Lemmas about the Decompression Unwrapper -/

lemma sumLen_cons (c : List Nat) (cs : List (List Nat)) :
    sumLen (c :: cs) = c.length + sumLen cs := by
  simp [sumLen]

lemma sumLen_pos_ne_nil {cs : List (List Nat)} {ms : Nat} (h : sumLen cs > ms) :
    cs ≠ [] := by
  intro he
  rw [he] at h
  simp [sumLen] at h

/-- The chunk loop succeeds when the limit is off or the total decoded
size stays within it, returning the concatenation of all chunks. -/
lemma decodeChunksAcc_ok (ms : Nat) (cs : List (List Nat)) (acc : List Nat)
    (h : ms = 0 ∨ acc.length + sumLen cs ≤ ms) :
    decodeChunksAcc ms cs acc = .ok (acc ++ cs.flatten) := by
  induction cs generalizing acc with
  | nil => simp [decodeChunksAcc]
  | cons c cs ih =>
    rw [decodeChunksAcc]
    have hcond : ¬(ms ≠ 0 ∧ (acc ++ c).length > ms) := by
      rcases h with h | h
      · intro hc; exact hc.1 h
      · intro hc
        rw [sumLen_cons] at h
        have := hc.2
        simp [List.length_append] at this
        omega
    rw [if_neg hcond, ih]
    · simp
    · rcases h with h | h
      · exact Or.inl h
      · right
        rw [sumLen_cons] at h
        simp [List.length_append]
        omega

/-- The chunk loop aborts with the breached limit as soon as the
cumulative size of the consumed chunks exceeds a non-zero limit; the
result does not depend on the chunks after the breach, which are never
materialised. -/
lemma decodeChunksAcc_error (ms : Nat) (cs2 : List (List Nat)) :
    ∀ (cs1 : List (List Nat)) (acc : List Nat), ms ≠ 0 → cs1 ≠ [] →
      acc.length + sumLen cs1 > ms →
      decodeChunksAcc ms (cs1 ++ cs2) acc = .error ms := by
  intro cs1
  induction cs1 with
  | nil =>
    intro acc _ hne _
    exact absurd rfl hne
  | cons c cs ih =>
    intro acc h0 _ hgt
    rw [List.cons_append, decodeChunksAcc]
    by_cases hc : ms ≠ 0 ∧ (acc ++ c).length > ms
    · rw [if_pos hc]
    · rw [if_neg hc]
      have hlen : (acc ++ c).length = acc.length + c.length := by
        simp
      have hle : acc.length + c.length ≤ ms := by
        rcases Nat.lt_or_ge ms (acc.length + c.length) with hl | hl
        · exact absurd ⟨h0, by omega⟩ hc
        · exact hl
      have hcs : cs ≠ [] := by
        intro he
        rw [he, sumLen_cons] at hgt
        simp [sumLen] at hgt
        omega
      apply ih (acc ++ c) h0 hcs
      rw [sumLen_cons] at hgt
      omega

/-! Equation lemmas reducing the loop bodies at a cons cell, by the
kind of token at the head. -/

lemma decodeOne_id (env : CodecEnv) (ms : Nat) {t : String} (body : List Nat)
    (h : (t == "identity") = true) : decodeOne env ms t body = .ok body := by
  rw [decodeOne, if_pos h]

lemma decodeOne_alg (env : CodecEnv) (ms : Nat) {t : String} {a : Alg}
    (body : List Nat) (h1 : (t == "identity") = false) (h2 : tokenAlg t = some a) :
    decodeOne env ms t body = decodeChunksAcc ms (env.decodeAlg a body) [] := by
  rw [decodeOne, if_neg (by simp [h1]), h2]

lemma decodeOne_unknown (env : CodecEnv) (ms : Nat) {t : String} (body : List Nat)
    (h1 : (t == "identity") = false) (h2 : tokenAlg t = none) :
    decodeOne env ms t body = .ok body := by
  rw [decodeOne, if_neg (by simp [h1]), h2]

lemma stepExceeds_cons_id (env : CodecEnv) (ms : Nat) {t : String}
    (ts : List String) (body : List Nat) (h : (t == "identity") = true) :
    stepExceeds env ms (t :: ts) body = stepExceeds env ms ts body := by
  rw [stepExceeds, if_pos h]

lemma stepExceeds_cons_alg (env : CodecEnv) (ms : Nat) {t : String} {a : Alg}
    (ts : List String) (body : List Nat)
    (h1 : (t == "identity") = false) (h2 : tokenAlg t = some a) :
    stepExceeds env ms (t :: ts) body =
      (decide (sumLen (env.decodeAlg a body) > ms) ||
        stepExceeds env ms ts (env.decodeAlg a body).flatten) := by
  rw [stepExceeds, if_neg (by simp [h1]), h2]

lemma stepExceeds_cons_unknown (env : CodecEnv) (ms : Nat) {t : String}
    (ts : List String) (body : List Nat)
    (h1 : (t == "identity") = false) (h2 : tokenAlg t = none) :
    stepExceeds env ms (t :: ts) body = stepExceeds env ms ts body := by
  rw [stepExceeds, if_neg (by simp [h1]), h2]

lemma decodeAll_cons_id (env : CodecEnv) {t : String} (ts : List String)
    (body : List Nat) (h : (t == "identity") = true) :
    decodeAll env (t :: ts) body = decodeAll env ts body := by
  rw [decodeAll, if_pos h]

lemma decodeAll_cons_alg (env : CodecEnv) {t : String} {a : Alg}
    (ts : List String) (body : List Nat)
    (h1 : (t == "identity") = false) (h2 : tokenAlg t = some a) :
    decodeAll env (t :: ts) body = decodeAll env ts (env.decodeAlg a body).flatten := by
  rw [decodeAll, if_neg (by simp [h1]), h2]

lemma decodeAll_cons_unknown (env : CodecEnv) {t : String} (ts : List String)
    (body : List Nat) (h1 : (t == "identity") = false) (h2 : tokenAlg t = none) :
    decodeAll env (t :: ts) body = decodeAll env ts body := by
  rw [decodeAll, if_neg (by simp [h1]), h2]

/-- The bounded decode loop equals: abort with the limit as soon as
the cumulative size of any decode step exceeds a non-zero limit, else the
unbounded decode result. -/
lemma decodeLoop_eq (env : CodecEnv) (ms : Nat) (ts : List String) (body : List Nat) :
    decodeLoop env ms ts body =
      if ms ≠ 0 ∧ stepExceeds env ms ts body = true then .error ms
      else .ok (decodeAll env ts body) := by
  induction ts generalizing body with
  | nil =>
    simp [decodeLoop, stepExceeds, decodeAll]
  | cons t ts ih =>
    by_cases hid : (t == "identity") = true
    · rw [stepExceeds_cons_id env ms ts body hid, decodeAll_cons_id env ts body hid,
        decodeLoop, decodeOne_id env ms body hid]
      show decodeLoop env ms ts body = _
      exact ih body
    · have hid' : (t == "identity") = false := by
        cases hb : t == "identity"
        · rfl
        · exact absurd hb hid
      cases htok : tokenAlg t with
      | none =>
        rw [stepExceeds_cons_unknown env ms ts body hid' htok,
          decodeAll_cons_unknown env ts body hid' htok,
          decodeLoop, decodeOne_unknown env ms body hid' htok]
        show decodeLoop env ms ts body = _
        exact ih body
      | some a =>
        rw [stepExceeds_cons_alg env ms ts body hid' htok,
          decodeAll_cons_alg env ts body hid' htok]
        by_cases h0 : ms = 0
        · have hval : decodeOne env ms t body =
              .ok (env.decodeAlg a body).flatten := by
            rw [decodeOne_alg env ms body hid' htok,
              decodeChunksAcc_ok ms _ [] (Or.inl h0)]
            simp
          rw [decodeLoop, hval]
          show decodeLoop env ms ts (env.decodeAlg a body).flatten = _
          rw [ih]
          simp [h0]
        · by_cases hgt : sumLen (env.decodeAlg a body) > ms
          · have hval : decodeOne env ms t body = .error ms := by
              rw [decodeOne_alg env ms body hid' htok]
              have := decodeChunksAcc_error ms [] (env.decodeAlg a body) []
                h0 (sumLen_pos_ne_nil hgt) (by simpa using hgt)
              simpa using this
            rw [decodeLoop, hval]
            show Except.error ms = _
            have hcond : ms ≠ 0 ∧ (decide (sumLen (env.decodeAlg a body) > ms) ||
                stepExceeds env ms ts (env.decodeAlg a body).flatten) = true :=
              ⟨h0, by simp [hgt]⟩
            rw [if_pos hcond]
          · have hval : decodeOne env ms t body =
                .ok (env.decodeAlg a body).flatten := by
              rw [decodeOne_alg env ms body hid' htok,
                decodeChunksAcc_ok ms _ []
                  (Or.inr (by simpa using Nat.le_of_not_lt hgt))]
              simp
            rw [decodeLoop, hval]
            show decodeLoop env ms ts (env.decodeAlg a body).flatten = _
            rw [ih]
            simp [hgt]

/-- The reversed chain splits as: supported tokens collected until the
first unsupported one. -/
lemma splitEncodingsRev_append (env : CodecEnv) (l : List String) :
    l = (splitEncodingsRev env l).1 ++ (splitEncodingsRev env l).2.reverse := by
  induction l with
  | nil => rfl
  | cons t rest ih =>
    rw [splitEncodingsRev]
    by_cases h : supportedTok env t = true
    · rw [if_pos h]
      calc t :: rest
          = t :: ((splitEncodingsRev env rest).1 ++
              (splitEncodingsRev env rest).2.reverse) := by rw [← ih]
        _ = _ := by simp
    · rw [if_neg h]
      simp

lemma splitEncodingsRev_supported (env : CodecEnv) (l : List String) :
    ∀ t ∈ (splitEncodingsRev env l).1, supportedTok env t = true := by
  induction l with
  | nil => intro t ht; simp [splitEncodingsRev] at ht
  | cons s rest ih =>
    intro t ht
    rw [splitEncodingsRev] at ht
    by_cases h : supportedTok env s = true
    · rw [if_pos h] at ht
      rcases List.mem_cons.mp ht with he | hm
      · rw [he]; exact h
      · exact ih t hm
    · rw [if_neg h] at ht
      simp at ht

lemma splitEncodingsRev_keep_last (env : CodecEnv) (l : List String)
    (h : (splitEncodingsRev env l).2 ≠ []) :
    ∃ pre t, (splitEncodingsRev env l).2 = pre ++ [t] ∧
      supportedTok env t = false := by
  induction l with
  | nil => exact absurd rfl h
  | cons s rest ih =>
    rw [splitEncodingsRev] at h ⊢
    by_cases hs : supportedTok env s = true
    · rw [if_pos hs] at h ⊢
      exact ih h
    · rw [if_neg hs] at h ⊢
      refine ⟨rest.reverse, s, by simp, ?_⟩
      exact Bool.not_eq_true _ ▸ eq_false_of_ne_true hs

lemma splitEncodingsRev_all_supported (env : CodecEnv) (l : List String)
    (h : ∀ t ∈ l, supportedTok env t = true) :
    splitEncodingsRev env l = (l, []) := by
  induction l with
  | nil => rfl
  | cons s rest ih =>
    rw [splitEncodingsRev, if_pos (h s (List.mem_cons_self s rest))]
    rw [ih (fun t ht => h t (List.mem_cons_of_mem s ht))]

/-- `identity` tokens decode as no-ops under any limit. -/
lemma decodeLoop_identity (env : CodecEnv) (ms : Nat) (ts : List String)
    (body : List Nat) (h : ∀ t ∈ ts, t = "identity") :
    decodeLoop env ms ts body = .ok body := by
  induction ts with
  | nil => rfl
  | cons t ts ih =>
    rw [decodeLoop, decodeOne]
    have ht : (t == "identity") = true := by
      have := h t (List.mem_cons_self t ts)
      rw [this]
      rfl
    rw [if_pos ht]
    exact ih (fun s hs => h s (List.mem_cons_of_mem t hs))

/-! Lemmas about the symbolic codec environment. -/

lemma tokenAlg_algTokenName (a : Alg) : tokenAlg (algTokenName a) = some a := by
  cases a <;> rfl

lemma algTokenName_ne_identity (a : Alg) :
    (algTokenName a == "identity") = false := by
  cases a <;> rfl

lemma supportedTok_symEnv_alg (a : Alg) :
    supportedTok symEnv (algTokenName a) = true := by
  cases a <;> rfl

lemma symDecode_compressSym (a : Alg) (bs : List Nat) :
    symDecode a (compressSym a bs) = [bs] := by
  simp [symDecode, compressSym]

lemma compressChain_concat (as : List Alg) (a : Alg) (bs : List Nat) :
    compressChain (as ++ [a]) bs = compressSym a (compressChain as bs) := by
  simp [compressChain, List.foldl_append]

lemma compressChain_ne_nil (as : List Alg) (bs : List Nat) (h : as ≠ []) :
    compressChain as bs ≠ [] := by
  rcases List.eq_nil_or_concat as with he | ⟨l, a, he⟩
  · exact absurd he h
  · rw [List.concat_eq_append] at he
    rw [he, compressChain_concat]
    simp [compressSym]

/-- LIFO round trip for the symbolic codec: decoding the reversed
chain undoes compression applied in forward chain order. -/
lemma decodeLoop_symChain (as : List Alg) (bs : List Nat) :
    decodeLoop symEnv 0 ((as.map algTokenName).reverse) (compressChain as bs) =
      .ok bs := by
  induction as using List.reverseRecOn with
  | nil => rfl
  | append_singleton as a ih =>
    rw [compressChain_concat]
    have hmap : ((as ++ [a]).map algTokenName).reverse =
        algTokenName a :: (as.map algTokenName).reverse := by
      simp
    have hval : decodeOne symEnv 0 (algTokenName a)
        (compressSym a (compressChain as bs)) = .ok (compressChain as bs) := by
      rw [decodeOne_alg symEnv 0 (compressSym a (compressChain as bs))
        (algTokenName_ne_identity a) (tokenAlg_algTokenName a)]
      have henv : symEnv.decodeAlg a (compressSym a (compressChain as bs)) =
          [compressChain as bs] := symDecode_compressSym a (compressChain as bs)
      rw [henv, decodeChunksAcc_ok 0 _ [] (Or.inl rfl)]
      simp
    rw [hmap, decodeLoop, hval]
    show decodeLoop symEnv 0 ((as.map algTokenName).reverse) (compressChain as bs) = _
    exact ih

/-! Splitting invariance: a comma inside one header occurrence splits
exactly like an occurrence boundary. -/

lemma splitListOn_ne_nil (sep : Char) (cs : List Char) :
    splitListOn sep cs ≠ [] := by
  cases cs with
  | nil => simp [splitListOn]
  | cons c cs =>
    rw [splitListOn]
    by_cases h : (c == sep) = true
    · simp [h]
    · rw [if_neg h]
      cases hrest : splitListOn sep cs <;> simp

lemma splitListOn_append_sep (sep : Char) (xs ys : List Char) :
    splitListOn sep (xs ++ sep :: ys) =
      splitListOn sep xs ++ splitListOn sep ys := by
  induction xs with
  | nil =>
    rw [List.nil_append, splitListOn]
    simp [splitListOn]
  | cons c cs ih =>
    rw [List.cons_append, splitListOn, ih]
    by_cases h : (c == sep) = true
    · rw [if_pos h, splitListOn, if_pos h]
      rfl
    · rw [if_neg h, splitListOn, if_neg h]
      obtain ⟨r, rs, hr⟩ : ∃ r rs, splitListOn sep cs = r :: rs := by
        cases hs : splitListOn sep cs with
        | nil => exact absurd hs (splitListOn_ne_nil sep cs)
        | cons r rs => exact ⟨r, rs, rfl⟩
      rw [hr]
      rfl

lemma splitStr_append_comma (o₁ o₂ : String) :
    splitStr ',' (o₁ ++ "," ++ o₂) = splitStr ',' o₁ ++ splitStr ',' o₂ := by
  unfold splitStr
  have hcomma : (",").data = [','] := rfl
  have hd : (o₁ ++ "," ++ o₂).data = o₁.data ++ ',' :: o₂.data := by
    rw [String.data_append, String.data_append, hcomma]
    simp
  rw [hd, splitListOn_append_sep]
  simp

/-! Reduction lemmas for `unwrap` on a non-`HEAD`, non-empty response
with a non-empty chain. -/

lemma unwrap_not_bypassed (env : CodecEnv) (method url : String)
    (occs : List String) (body : List Nat) (limits : SizeLimits)
    (hm : method ≠ "HEAD") (hb : body ≠ []) (hc : chainTokens occs ≠ []) :
    unwrap env method url occs body limits =
      match decodeLoop env limits.maxSize
          (splitEncodings env (chainTokens occs)).1 body with
      | .error m => .error ⟨url, m⟩
      | .ok decoded =>
        .ok (unwrapCore url (splitEncodings env (chainTokens occs)).2
          limits decoded) := by
  rw [unwrap]
  rw [if_neg (by simp [hm, List.isEmpty_iff, hb])]
  rw [if_neg (by simp [List.isEmpty_iff, hc])]

lemma unwrap_error (env : CodecEnv) (method url : String)
    (occs : List String) (body : List Nat) (limits : SizeLimits) (m : Nat)
    (hm : method ≠ "HEAD") (hb : body ≠ []) (hc : chainTokens occs ≠ [])
    (hloop : decodeLoop env limits.maxSize
      (splitEncodings env (chainTokens occs)).1 body = .error m) :
    unwrap env method url occs body limits = .error ⟨url, m⟩ := by
  rw [unwrap_not_bypassed env method url occs body limits hm hb hc, hloop]

lemma unwrap_ok (env : CodecEnv) (method url : String)
    (occs : List String) (body : List Nat) (limits : SizeLimits)
    (decoded : List Nat)
    (hm : method ≠ "HEAD") (hb : body ≠ []) (hc : chainTokens occs ≠ [])
    (hloop : decodeLoop env limits.maxSize
      (splitEncodings env (chainTokens occs)).1 body = .ok decoded) :
    unwrap env method url occs body limits =
      .ok (unwrapCore url (splitEncodings env (chainTokens occs)).2
        limits decoded) := by
  rw [unwrap_not_bypassed env method url occs body limits hm hb hc, hloop]

/-! ### Theorems about the Type Classifier -/

/-- C5: for every non-empty, non-identity Content-Encoding value,
classification from the Content-Type header returns the generic kind
regardless of the declared content type. -/
theorem C5_encoding_suppresses_content_type (ct ce : String)
    (h1 : ce ≠ "") (_h2 : ce ≠ "identity") :
    from_content_type ct (some ce) = .generic := by
  unfold from_content_type optTruthy
  simp [bne_iff_ne, h1]

/-- Witness for C5 at `text/html` with encoding `gzip`. -/
theorem C5_encoding_suppresses_content_type_witness :
    from_content_type "text/html" (some "gzip") = .generic :=
  C5_encoding_suppresses_content_type "text/html" "gzip"
    (by decide) (by decide)

/-- C4: classification applies the hints in strict precedence order —
headers, then URL, then explicit filename, then body sniffing — with
the first non-generic hint winning. -/
theorem C4_classification_precedence :
    (∀ (h : Headers) (u f : Option String) (b : Option (List Nat)),
        from_headers h ≠ .generic →
        from_args (some h) u f b = from_headers h)
    ∧ (∀ (h : Headers) (u : String) (f : Option String) (b : Option (List Nat)),
        from_headers h = .generic → from_filename u ≠ .generic →
        from_args (some h) (some u) f b = from_filename u)
    ∧ (∀ (h : Headers) (u f : String) (b : Option (List Nat)),
        from_headers h = .generic → from_filename u = .generic →
        from_filename f ≠ .generic →
        from_args (some h) (some u) (some f) b = from_filename f)
    ∧ (∀ (h : Headers) (u f : String) (b : List Nat),
        from_headers h = .generic → from_filename u = .generic →
        from_filename f = .generic →
        from_args (some h) (some u) (some f) (some b) = from_body b)
    ∧ (∀ (u : String) (f : Option String) (b : Option (List Nat)),
        from_filename u ≠ .generic →
        from_args none (some u) f b = from_filename u)
    ∧ (∀ b : List Nat, from_args none none none (some b) = from_body b) := by
  refine ⟨?_, ?_, ?_, ?_, ?_, ?_⟩
  · intro h u f b h1
    simp [from_args, h1]
  · intro h u f b h1 h2
    simp [from_args, h1, h2]
  · intro h u f b h1 h2 h3
    simp [from_args, h1, h2, h3]
  · intro h u f b h1 h2 h3
    simp [from_args, h1, h2, h3]
  · intro u f b h1
    simp [from_args, h1]
  · intro b
    simp [from_args]

/-- Witness for C4: a `text/html` header beats a `.json` URL; with no
headers a `.xml` URL beats body sniffing; with no other hint a body
starting with `<!DOCTYPE html>` sniffs as Html. -/
theorem C4_classification_precedence_witness :
    from_args (some [("Content-Type", "text/html")])
        (some "http://example.com/data.json") none none = .html
    ∧ from_args none (some "http://example.com/feed.xml") none
        (some (strBytes "<html>")) = .xml
    ∧ from_args none none none (some (strBytes "<!DOCTYPE html><html>x")) = .html := by
  refine ⟨?_, ?_, ?_⟩
  · rw [C4_classification_precedence.1 [("Content-Type", "text/html")]
      (some "http://example.com/data.json") none none (by decide)]
    decide
  · rw [C4_classification_precedence.2.2.2.2.1 "http://example.com/feed.xml"
      none (some (strBytes "<html>")) (by decide)]
    decide
  · rw [C4_classification_precedence.2.2.2.2.2 (strBytes "<!DOCTYPE html><html>x")]
    decide

/-- C7: body sniffing inspects only the first 5000 bytes; a non-text
sample is binary (the generic kind); otherwise the lower-cased sample
is matched in the order `<html>` → Html, `<?xml` → Xml,
`<!doctype html>` → Html, else generic Text. -/
theorem C7_body_sniffing (body : List Nat) :
    (from_body body = from_body (body.take 5000))
    ∧ (binary_is_text (body.take 5000) = false → from_body body = .generic)
    ∧ (binary_is_text (body.take 5000) = true →
        containsSeq (strBytes "<html>") ((body.take 5000).map byteLower) = true →
        from_body body = .html)
    ∧ (binary_is_text (body.take 5000) = true →
        containsSeq (strBytes "<html>") ((body.take 5000).map byteLower) = false →
        containsSeq (strBytes "<?xml") ((body.take 5000).map byteLower) = true →
        from_body body = .xml)
    ∧ (binary_is_text (body.take 5000) = true →
        containsSeq (strBytes "<html>") ((body.take 5000).map byteLower) = false →
        containsSeq (strBytes "<?xml") ((body.take 5000).map byteLower) = false →
        containsSeq (strBytes "<!doctype html>") ((body.take 5000).map byteLower) = true →
        from_body body = .html)
    ∧ (binary_is_text (body.take 5000) = true →
        containsSeq (strBytes "<html>") ((body.take 5000).map byteLower) = false →
        containsSeq (strBytes "<?xml") ((body.take 5000).map byteLower) = false →
        containsSeq (strBytes "<!doctype html>") ((body.take 5000).map byteLower) = false →
        from_body body = .text) := by
  refine ⟨?_, ?_, ?_, ?_, ?_, ?_⟩
  · simp [from_body, List.take_take]
  · intro h1
    simp [from_body, h1]
    decide
  · intro h1 h2
    simp [from_body, h1, h2, -List.map_take]
    decide
  · intro h1 h2 h3
    simp [from_body, h1, h2, h3, -List.map_take]
    decide
  · intro h1 h2 h3 h4
    simp [from_body, h1, h2, h3, h4, -List.map_take]
    decide
  · intro h1 h2 h3 h4
    simp [from_body, h1, h2, h3, h4, -List.map_take]
    decide

/-- Witness for C7 on a small XML body. -/
theorem C7_body_sniffing_witness :
    from_body (strBytes "<?xml version=1.0?><a/>") = .xml := by
  have h := (C7_body_sniffing (strBytes "<?xml version=1.0?><a/>")).2.2.2.1
  exact h (by decide) (by decide) (by decide)

/-- C8: a URL or filename whose extension implies a content-encoding
yields no determination (the generic kind); a specific kind arises
only from a guessed MIME type with no implied encoding. -/
theorem C8_encoding_extension_skipped (filename : String) :
    ((guess_type filename).2 ≠ none → from_filename filename = .generic)
    ∧ (from_filename filename ≠ .generic →
        ∃ m, guess_type filename = (some m, none) ∧
          from_filename filename = from_mimetype (some m)) := by
  constructor
  · intro he
    rcases hg : guess_type filename with ⟨m, e⟩
    rw [hg] at he
    cases e with
    | none => exact absurd rfl he
    | some enc => cases m <;> simp [from_filename, hg]
  · intro hne
    rcases hg : guess_type filename with ⟨m, e⟩
    cases m with
    | none =>
      exfalso
      apply hne
      cases e <;> simp [from_filename, hg]
    | some mt =>
      cases e with
      | none => exact ⟨mt, rfl, by simp [from_filename, hg]⟩
      | some enc =>
        exfalso
        apply hne
        simp [from_filename, hg]

/-- Witness for C8 at a `.gz`-suffixed filename. -/
theorem C8_encoding_extension_skipped_witness :
    from_filename "report.html.gz" = .generic
    ∧ guess_type "report.html.gz" = (some "text/html", some "gzip") := by
  refine ⟨(C8_encoding_extension_skipped "report.html.gz").1 ?_, by decide⟩
  decide

/-- C9: classification is total — it returns the generic kind whenever
no hint resolves, and a Content-Disposition header without a parseable
filename parameter resolves to the generic kind instead of failing. -/
theorem C9_classification_never_fails :
    (∀ (h : Option Headers) (u f : Option String) (b : Option (List Nat)),
        (∀ hh, h = some hh → from_headers hh = .generic) →
        (∀ uu, u = some uu → from_filename uu = .generic) →
        (∀ ff, f = some ff → from_filename ff = .generic) →
        (∀ bb, b = some bb → from_body bb = .generic) →
        from_args h u f b = .generic)
    ∧ (∀ cd, parseDispositionFilename cd = none →
        from_content_disposition cd = .generic) := by
  constructor
  · intro h u f b h1 h2 h3 h4
    cases h <;> cases u <;> cases f <;> cases b <;>
      simp_all [from_args]
  · intro cd hcd
    simp [from_content_disposition, hcd]

/-- Witness for C9: a malformed Content-Disposition header (no
filename parameter) yields the generic kind. -/
theorem C9_classification_never_fails_witness :
    from_args (some [("Content-Disposition", "attachment")]) none none none = .generic
    ∧ from_content_disposition "attachment" = .generic := by
  constructor
  · exact C9_classification_never_fails.1
      (some [("Content-Disposition", "attachment")]) none none none
      (by intro hh e; cases e; decide)
      (by intro uu e; cases e) (by intro ff e; cases e) (by intro bb e; cases e)
  · exact C9_classification_never_fails.2 "attachment" (by decide)

/-- C10: when the Content-Type header is present but resolves to the
generic kind, a present Content-Disposition header is still consulted
— the fallback is not limited to an absent Content-Type. -/
theorem C10_disposition_fallback (h : Headers) (ct cd : String)
    (h1 : hget h "Content-Type" = some ct)
    (h2 : from_content_type ct (hget h "Content-Encoding") = .generic)
    (h3 : hget h "Content-Disposition" = some cd) :
    from_headers h = from_content_disposition cd := by
  simp [from_headers, h1, h2, h3]

/-- Witness for C10: Content-Type suppressed by Content-Encoding, and
the Content-Disposition filename still resolves Html. -/
theorem C10_disposition_fallback_witness :
    from_headers
      [("Content-Type", "text/html"), ("Content-Encoding", "gzip"),
       ("Content-Disposition", "attachment; filename=x.html")] = .html := by
  rw [C10_disposition_fallback
    [("Content-Type", "text/html"), ("Content-Encoding", "gzip"),
     ("Content-Disposition", "attachment; filename=x.html")]
    "text/html" "attachment; filename=x.html" (by decide) (by decide) (by decide)]
  decide

/-! ### Theorems about the Decompression Unwrapper -/

/-- C1: the effective `max_size` is resolved with precedence request
metadata > spider attribute > global default; a decode step whose
cumulative decoded size exceeds a non-zero effective `max_size` aborts
the unwrap with the distinguishable drop condition, the chunk loop
never materialising the chunks after the breach; a decode that
completes with a size above `warn_size` (but within `max_size`, since
the loop succeeded) emits exactly one warning naming the actual
decoded byte count and the warn threshold. -/
theorem C1_size_limit_enforcement (env : CodecEnv) (cfg : MwConfig) (req : Req)
    (url : String) (occs : List String) (body : List Nat) :
    (∀ a b c : Nat,
        (a ≠ 0 → resolveLimit a b c = a)
        ∧ (a = 0 → b ≠ 0 → resolveLimit a b c = b)
        ∧ (a = 0 → b = 0 → resolveLimit a b c = c))
    ∧ (∀ (acc : List Nat) (cs1 cs2 : List (List Nat)),
        (effectiveLimits cfg req).maxSize ≠ 0 → cs1 ≠ [] →
        acc.length + sumLen cs1 > (effectiveLimits cfg req).maxSize →
        decodeChunksAcc (effectiveLimits cfg req).maxSize (cs1 ++ cs2) acc =
          .error (effectiveLimits cfg req).maxSize)
    ∧ (req.method ≠ "HEAD" → body ≠ [] → chainTokens occs ≠ [] →
        (effectiveLimits cfg req).maxSize ≠ 0 →
        stepExceeds env (effectiveLimits cfg req).maxSize
          (splitEncodings env (chainTokens occs)).1 body = true →
        processResponse env cfg req url occs body =
          .error ⟨url, (effectiveLimits cfg req).maxSize⟩)
    ∧ (∀ decoded : List Nat, req.method ≠ "HEAD" → body ≠ [] →
        chainTokens occs ≠ [] →
        decodeLoop env (effectiveLimits cfg req).maxSize
          (splitEncodings env (chainTokens occs)).1 body = .ok decoded →
        (effectiveLimits cfg req).warnSize ≠ 0 →
        decoded.length > (effectiveLimits cfg req).warnSize →
        ∃ r, processResponse env cfg req url occs body = .ok r ∧
          r.logs.filter isSizeWarning =
            [.sizeWarning url decoded.length (effectiveLimits cfg req).warnSize]) := by
  refine ⟨?_, ?_, ?_, ?_⟩
  · intro a b c
    refine ⟨fun ha => ?_, fun ha hb => ?_, fun ha hb => ?_⟩ <;>
      simp [resolveLimit, *]
  · intro acc cs1 cs2 h0 hne hgt
    exact decodeChunksAcc_error _ cs2 cs1 acc h0 hne hgt
  · intro hm hb hc h0 hex
    have hloop : decodeLoop env (effectiveLimits cfg req).maxSize
        (splitEncodings env (chainTokens occs)).1 body =
        .error (effectiveLimits cfg req).maxSize := by
      rw [decodeLoop_eq, if_pos ⟨h0, hex⟩]
    rw [processResponse]
    exact unwrap_error env req.method url occs body _ _ hm hb hc hloop
  · intro decoded hm hb hc hloop hw hgt
    refine ⟨unwrapCore url (splitEncodings env (chainTokens occs)).2
      (effectiveLimits cfg req) decoded, ?_, ?_⟩
    · rw [processResponse]
      exact unwrap_ok env req.method url occs body _ decoded hm hb hc hloop
    · rw [unwrapCore]
      have hcond : (effectiveLimits cfg req).warnSize ≠ 0 ∧
          decoded.length > (effectiveLimits cfg req).warnSize := ⟨hw, hgt⟩
      rw [if_pos hcond]
      by_cases hk : (splitEncodings env (chainTokens occs)).2.isEmpty <;>
        simp [hk, List.filter_append, isSizeWarning]

/-- Witness for C1: a quadrupling codec with a 3-byte input; the drop
fires under a global default `max_size` of 10, and the warning fires
exactly once under a `warn_size` of 10, naming 12 bytes against 10. -/
theorem C1_size_limit_enforcement_witness :
    processResponse ⟨true, true, fun _ b => [b ++ b, b ++ b]⟩ ⟨10, 0, 0, 0⟩
        ⟨"GET", 0, 0⟩ "http://scrapytest.org/" ["gzip"] [9, 9, 9] =
      .error ⟨"http://scrapytest.org/", 10⟩
    ∧ ∃ r, processResponse ⟨true, true, fun _ b => [b ++ b, b ++ b]⟩ ⟨0, 10, 0, 0⟩
        ⟨"GET", 0, 0⟩ "http://scrapytest.org/" ["gzip"] [9, 9, 9] = .ok r ∧
        r.logs.filter isSizeWarning =
          [.sizeWarning "http://scrapytest.org/" 12 10] := by
  constructor
  · exact (C1_size_limit_enforcement ⟨true, true, fun _ b => [b ++ b, b ++ b]⟩
      ⟨10, 0, 0, 0⟩ ⟨"GET", 0, 0⟩ "http://scrapytest.org/" ["gzip"]
      [9, 9, 9]).2.2.1 (by decide) (by decide) (by decide) (by decide) rfl
  · exact (C1_size_limit_enforcement ⟨true, true, fun _ b => [b ++ b, b ++ b]⟩
      ⟨0, 10, 0, 0⟩ ⟨"GET", 0, 0⟩ "http://scrapytest.org/" ["gzip"]
      [9, 9, 9]).2.2.2 [9, 9, 9, 9, 9, 9, 9, 9, 9, 9, 9, 9]
      (by decide) (by decide) (by decide) rfl (by decide) (by decide)

/-- C2: the backward scan over the declared chain collects only
supported tokens, stops at the first unsupported one (which ends the
kept prefix), and on such a partial decode the middleware returns the
bytes decoded so far, re-attaches the kept tokens in original
declaration order, and emits a warning naming their comma-joined
list. -/
theorem C2_partial_chain_policy (env : CodecEnv) (cfg : MwConfig) (req : Req)
    (url : String) (occs : List String) (body decoded : List Nat) :
    (chainTokens occs =
        (splitEncodings env (chainTokens occs)).2 ++
          (splitEncodings env (chainTokens occs)).1.reverse)
    ∧ (∀ t ∈ (splitEncodings env (chainTokens occs)).1,
        supportedTok env t = true)
    ∧ ((splitEncodings env (chainTokens occs)).2 ≠ [] →
        ∃ pre t, (splitEncodings env (chainTokens occs)).2 = pre ++ [t] ∧
          supportedTok env t = false)
    ∧ (req.method ≠ "HEAD" → body ≠ [] → chainTokens occs ≠ [] →
        (splitEncodings env (chainTokens occs)).2 ≠ [] →
        decodeLoop env (effectiveLimits cfg req).maxSize
          (splitEncodings env (chainTokens occs)).1 body = .ok decoded →
        ∃ r, processResponse env cfg req url occs body = .ok r ∧
          r.body = decoded ∧
          r.remainingEncoding = (splitEncodings env (chainTokens occs)).2 ∧
          r.stats = ⟨0, 0⟩ ∧
          LogEvent.unsupportedWarning url
            (commaJoin (splitEncodings env (chainTokens occs)).2) ∈ r.logs) := by
  refine ⟨?_, ?_, ?_, ?_⟩
  · have h : (chainTokens occs).reverse =
        (splitEncodings env (chainTokens occs)).1 ++
          (splitEncodings env (chainTokens occs)).2.reverse :=
      splitEncodingsRev_append env (chainTokens occs).reverse
    calc chainTokens occs = (chainTokens occs).reverse.reverse := by simp
      _ = ((splitEncodings env (chainTokens occs)).1 ++
            (splitEncodings env (chainTokens occs)).2.reverse).reverse := by
          rw [← h]
      _ = _ := by simp
  · exact splitEncodingsRev_supported env (chainTokens occs).reverse
  · exact splitEncodingsRev_keep_last env (chainTokens occs).reverse
  · intro hm hb hc hk hloop
    refine ⟨unwrapCore url (splitEncodings env (chainTokens occs)).2
      (effectiveLimits cfg req) decoded, ?_, rfl, rfl, ?_, ?_⟩
    · rw [processResponse]
      exact unwrap_ok env req.method url occs body _ decoded hm hb hc hloop
    · rw [unwrapCore]
      simp [List.isEmpty_iff, hk]
    · rw [unwrapCore]
      simp [List.isEmpty_iff, hk]

/-- Witness for C2: chain `[gzip, foo, deflate]` in a single header
occurrence over the symbolic codec: only `deflate` is decoded, the
header keeps `[gzip, foo]` and the warning names `gzip,foo`. -/
theorem C2_partial_chain_policy_witness :
    ∃ r, processResponse symEnv ⟨0, 0, 0, 0⟩ ⟨"GET", 0, 0⟩
        "http://scrapytest.org/" ["gzip, foo, deflate"]
        (compressSym .deflate [5]) = .ok r ∧
      r.body = [5] ∧
      r.remainingEncoding = ["gzip", "foo"] ∧
      r.stats = ⟨0, 0⟩ ∧
      LogEvent.unsupportedWarning "http://scrapytest.org/" "gzip,foo" ∈ r.logs := by
  have h := (C2_partial_chain_policy symEnv ⟨0, 0, 0, 0⟩ ⟨"GET", 0, 0⟩
    "http://scrapytest.org/" ["gzip, foo, deflate"]
    (compressSym .deflate [5]) [5]).2.2.2
    (by decide) (by decide) (by decide) (by decide) rfl
  simpa using h

/-- C3: the encoding chain concatenates the comma-split trimmed tokens
of all header occurrences — a comma inside one occurrence splits
exactly like an occurrence boundary — and decoding reverses the chain
in LIFO order: a body compressed under any forward chain and declared
with that chain, however the occurrences are arranged, decodes to the
original plaintext with no remaining encoding, the header removed and
stats updated. -/
theorem C3_chain_order_lifo :
    (∀ (pre post : List String) (o₁ o₂ : String),
        chainTokens (pre ++ (o₁ ++ "," ++ o₂) :: post) =
          chainTokens (pre ++ o₁ :: o₂ :: post))
    ∧ (∀ (as : List Alg) (bs : List Nat) (occs : List String) (req : Req)
        (url : String),
        req.method ≠ "HEAD" → req.metaMaxSize = 0 → req.metaWarnSize = 0 →
        as ≠ [] → chainTokens occs = as.map algTokenName →
        processResponse symEnv ⟨0, 0, 0, 0⟩ req url occs (compressChain as bs) =
          .ok ⟨bs, [], ⟨1, bs.length⟩, []⟩) := by
  constructor
  · intro pre post o₁ o₂
    simp only [chainTokens, List.map_append, List.map_cons,
      List.flatten_append, List.flatten_cons]
    rw [splitStr_append_comma]
    simp
  · intro as bs occs req url hm hmm hmw hne hchain
    have hlim : effectiveLimits ⟨0, 0, 0, 0⟩ req = ⟨0, 0⟩ := by
      simp [effectiveLimits, resolveLimit, hmm, hmw]
    have hsplit : splitEncodings symEnv (chainTokens occs) =
        ((chainTokens occs).reverse, []) := by
      rw [splitEncodings]
      apply splitEncodingsRev_all_supported
      intro t ht
      rw [List.mem_reverse, hchain] at ht
      rcases List.mem_map.mp ht with ⟨a, _, rfl⟩
      exact supportedTok_symEnv_alg a
    have hloop : decodeLoop symEnv (0 : Nat)
        (splitEncodings symEnv (chainTokens occs)).1 (compressChain as bs) =
        .ok bs := by
      rw [hsplit, hchain]
      exact decodeLoop_symChain as bs
    have hchainne : chainTokens occs ≠ [] := by
      rw [hchain]
      intro he
      exact hne (List.map_eq_nil_iff.mp he)
    rw [processResponse, hlim]
    rw [unwrap_ok symEnv req.method url occs (compressChain as bs) ⟨0, 0⟩ bs hm
      (compressChain_ne_nil as bs hne) hchainne hloop]
    rw [hsplit, unwrapCore]
    simp

/-- Witness for C3: the same gzip-deflate-gzip payload decodes to the
plaintext both when the chain is declared in one occurrence and when
it is split across two. -/
theorem C3_chain_order_lifo_witness :
    chainTokens ["gzip, deflate, gzip"] = chainTokens ["gzip", "deflate, gzip"]
    ∧ processResponse symEnv ⟨0, 0, 0, 0⟩ ⟨"GET", 0, 0⟩ "http://scrapytest.org/"
        ["gzip, deflate, gzip"]
        (compressChain [.gzip, .deflate, .gzip] [9, 8]) =
      .ok ⟨[9, 8], [], ⟨1, 2⟩, []⟩
    ∧ processResponse symEnv ⟨0, 0, 0, 0⟩ ⟨"GET", 0, 0⟩ "http://scrapytest.org/"
        ["gzip", "deflate, gzip"]
        (compressChain [.gzip, .deflate, .gzip] [9, 8]) =
      .ok ⟨[9, 8], [], ⟨1, 2⟩, []⟩ := by
  refine ⟨by decide, ?_, ?_⟩
  · exact C3_chain_order_lifo.2 [.gzip, .deflate, .gzip] [9, 8]
      ["gzip, deflate, gzip"] ⟨"GET", 0, 0⟩ "http://scrapytest.org/"
      (by decide) rfl rfl (by decide) (by decide)
  · exact C3_chain_order_lifo.2 [.gzip, .deflate, .gzip] [9, 8]
      ["gzip", "deflate, gzip"] ⟨"GET", 0, 0⟩ "http://scrapytest.org/"
      (by decide) rfl rfl (by decide) (by decide)

/-- C6 (counterexample): an `identity`-only chain does update the
stats counters — the repository test suite
(`test_process_response_no_content_type_header`) requires the response
count to become 1 and the byte count to grow by the body length, so
the claimed "no stats update for identity-only chains" fails. -/
theorem C6_counterexample_identity_stats :
    processResponse symEnv ⟨0, 0, 0, 0⟩ ⟨"GET", 0, 0⟩ "http://scrapytest.org/"
        ["identity"] [7, 7, 7] =
      .ok ⟨[7, 7, 7], [], ⟨1, 3⟩, []⟩
    ∧ Stats.mk 1 3 ≠ Stats.mk 0 0 :=
  ⟨rfl, by decide⟩

/-- C6 (amended): a response with an empty declared chain passes
through unchanged with no stats update; a chain of only `identity`
tokens returns the body unchanged with the header stripped, but the
stats counters are updated (count 1, bytes = body length). -/
theorem C6_empty_and_identity_chains (env : CodecEnv) (cfg : MwConfig)
    (req : Req) (url : String) (occs : List String) (body : List Nat) :
    (req.method ≠ "HEAD" → chainTokens occs = [] →
        processResponse env cfg req url occs body = .ok ⟨body, [], ⟨0, 0⟩, []⟩)
    ∧ (req.method ≠ "HEAD" → body ≠ [] → chainTokens occs ≠ [] →
        (∀ t ∈ chainTokens occs, t = "identity") →
        ∃ r, processResponse env cfg req url occs body = .ok r ∧
          r.body = body ∧ r.remainingEncoding = [] ∧
          r.stats = ⟨1, body.length⟩) := by
  constructor
  · intro hm hchain
    rw [processResponse, unwrap]
    by_cases hb : body = []
    · rw [if_pos (by simp [hb])]
      rw [hchain, hb]
    · rw [if_neg (by simp [hm, List.isEmpty_iff, hb])]
      rw [if_pos (by simp [List.isEmpty_iff, hchain])]
  · intro hm hb hc hid
    have hsupp : ∀ t ∈ (chainTokens occs).reverse, supportedTok env t = true := by
      intro t ht
      rw [List.mem_reverse] at ht
      rw [hid t ht]
      rfl
    have hsplit : splitEncodings env (chainTokens occs) =
        ((chainTokens occs).reverse, []) := by
      rw [splitEncodings]
      exact splitEncodingsRev_all_supported env (chainTokens occs).reverse hsupp
    have hloop : decodeLoop env (effectiveLimits cfg req).maxSize
        (splitEncodings env (chainTokens occs)).1 body = .ok body := by
      rw [hsplit]
      apply decodeLoop_identity
      intro t ht
      rw [List.mem_reverse] at ht
      exact hid t ht
    refine ⟨unwrapCore url (splitEncodings env (chainTokens occs)).2
      (effectiveLimits cfg req) body, ?_, ?_⟩
    · rw [processResponse]
      exact unwrap_ok env req.method url occs body _ body hm hb hc hloop
    · rw [hsplit, unwrapCore]
      simp

/-- Witness for the amended C6: an empty chain passes through with
zero stats, a double-identity chain passes through with the header
stripped and stats updated. -/
theorem C6_empty_and_identity_chains_witness :
    processResponse symEnv ⟨0, 0, 0, 0⟩ ⟨"GET", 0, 0⟩ "http://scrapytest.org/"
        [] [1, 2] = .ok ⟨[1, 2], [], ⟨0, 0⟩, []⟩
    ∧ ∃ r, processResponse symEnv ⟨0, 0, 0, 0⟩ ⟨"GET", 0, 0⟩
        "http://scrapytest.org/" ["identity", "identity"] [5] = .ok r ∧
        r.body = [5] ∧ r.remainingEncoding = [] ∧ r.stats = ⟨1, 1⟩ := by
  constructor
  · exact (C6_empty_and_identity_chains symEnv ⟨0, 0, 0, 0⟩ ⟨"GET", 0, 0⟩
      "http://scrapytest.org/" [] [1, 2]).1 (by decide) rfl
  · exact (C6_empty_and_identity_chains symEnv ⟨0, 0, 0, 0⟩ ⟨"GET", 0, 0⟩
      "http://scrapytest.org/" ["identity", "identity"] [5]).2
      (by decide) (by decide) (by decide) (by decide)

end Spec2Proof
